import Mathlib

/-!
Verification of the Embedding Analysis Engine of the obs-auto-sort repository.

The TypeScript sources are shallowly embedded: JavaScript numbers become `ℚ`
(IEEE doubles are modelled by exact rationals; the transcendental library
functions `Math.sqrt`, `Math.exp`, `Math.log` and the generator `Math.random`
are passed in as explicit function parameters), JavaScript arrays become
`List`, the insertion-ordered `Map` becomes an association list and the
stable `Array.prototype.sort` becomes `List.insertionSort` (a stable sort
produces the same list as any other stable sort, and this one evaluates
inside the kernel).  String manipulation is written over `String.data`
(lists of characters) so that concrete runs of the pipeline reduce.
-/

set_option allowUnsafeReducibility true
attribute [local semireducible] Rat.add Rat.mul Rat.sub Rat.inv
set_option maxRecDepth 8000

namespace ObsAutoSort

/-! ## src/database/queries.ts -/

/-- `calculateCosineSimilarity` from `src/database/queries.ts` (drizzle
`DatabaseManager`): returns `0` when the two vectors have different lengths,
`0` when either squared norm is zero, and `dot / (sqrt normA * sqrt normB)`
otherwise.  `sqrtQ` models `Math.sqrt`. -/
def calculateCosineSimilarity (sqrtQ : ℚ → ℚ) (vecA vecB : List ℚ) : ℚ :=
  if vecA.length ≠ vecB.length then 0
  else
    let dotProduct := (List.zipWith (fun a b => a * b) vecA vecB).sum
    let normA := (vecA.map (fun a => a * a)).sum
    let normB := (vecB.map (fun b => b * b)).sum
    if normA = 0 ∨ normB = 0 then 0
    else dotProduct / (sqrtQ normA * sqrtQ normB)

/-- The per-note similarity of `searchSimilarNotes` (primary path): fold of
`Math.max` over the cosine similarities of the note's chunk embeddings,
starting from `maxSimilarity = 0`. -/
def noteMaxSimilarity (sqrtQ : ℚ → ℚ) (queryEmbedding : List ℚ)
    (noteEmbeddings : List (List ℚ)) : ℚ :=
  noteEmbeddings.foldl
    (fun m e => max m (calculateCosineSimilarity sqrtQ queryEmbedding e)) 0

/-- A search result entry: note id with its reported similarity. -/
structure SearchHit where
  id : String
  similarity : ℚ
deriving DecidableEq, Repr

/-- The primary path of `searchSimilarNotes` from `src/database/queries.ts`,
after the rows have been grouped by note id (`noteMap`): each note carries the
list of its successfully parsed chunk embeddings; notes whose max-similarity
passes the threshold are kept, sorted descending by similarity (stable, as the
JS comparator sort), and truncated to `limit` via `slice(0, limit)`. -/
def searchSimilarNotes (sqrtQ : ℚ → ℚ) (queryEmbedding : List ℚ)
    (noteRows : List (String × List (List ℚ))) (limit : ℕ) (threshold : ℚ) :
    List SearchHit :=
  let results := noteRows.filterMap (fun r =>
    let s := noteMaxSimilarity sqrtQ queryEmbedding r.2
    if threshold ≤ s then some ⟨r.1, s⟩ else none)
  (List.insertionSort (fun a b => b.similarity ≤ a.similarity) results).take limit

/-! ## src/analysis/ThemeExtractor.ts -/

/-- The stop-word set from `initializeStopWords` (the source array lists
`her` twice; set membership is unaffected). -/
def stopWords : List String :=
  ["the", "a", "an", "and", "or", "but", "in", "on", "at", "to", "for", "of", "with",
   "by", "from", "up", "about", "into", "through", "during", "before", "after",
   "above", "below", "between", "among", "within", "without", "under", "over",
   "is", "are", "was", "were", "be", "been", "being", "have", "has", "had",
   "do", "does", "did", "will", "would", "could", "should", "may", "might",
   "must", "shall", "can", "this", "that", "these", "those", "i", "you", "he",
   "she", "it", "we", "they", "me", "him", "her", "us", "them", "my", "your",
   "his", "her", "its", "our", "their", "myself", "yourself", "himself",
   "herself", "itself", "ourselves", "yourselves", "themselves", "what",
   "which", "who", "whom", "whose", "where", "when", "why", "how", "all",
   "any", "both", "each", "few", "more", "most", "other", "some", "such",
   "no", "nor", "not", "only", "own", "same", "so", "than", "too", "very",
   "just", "now", "here", "there", "then", "once", "also", "as", "if"]

/-- A `\w` word character of the JS regex `[^\w\s]`: ASCII alphanumeric or
underscore. -/
def isWordChar (c : Char) : Bool := c.isAlphanum || c = '_'

/-- Lowercase a string character by character (`toLowerCase`). -/
def lowerStr (s : String) : String := String.mk (s.data.map Char.toLower)

/-- Split a character list at every separator character, keeping empty
fragments, as `String.prototype.split` does; `acc` holds the current fragment
reversed. -/
def splitChars (p : Char → Bool) : List Char → List Char → List String
  | [], acc => [String.mk acc.reverse]
  | c :: cs, acc =>
    if p c then String.mk acc.reverse :: splitChars p cs []
    else splitChars p cs (c :: acc)

/-- Join strings with a separator (`Array.prototype.join`). -/
def joinSep (sep : String) (parts : List String) : String :=
  String.mk (List.intercalate sep.data (parts.map String.data))

/-- `extractWords`: lowercase, replace every character that is neither a word
character nor whitespace by a space, split on whitespace, drop empty tokens. -/
def extractWords (text : String) : List String :=
  (splitChars (fun c => c.isWhitespace)
    ((lowerStr text).data.map (fun c =>
      if isWordChar c || c.isWhitespace then c else ' ')) []).filter
    (fun word => 0 < word.length)

/-- The filter of `analyzeNotes` on extracted words: length above 2, not a
stop word, not purely numeric (`/^\d+$/`). -/
def cleanFilter (word : String) : Bool :=
  2 < word.length && !(stopWords.contains (lowerStr word)) &&
    !(0 < word.length && word.data.all Char.isDigit)

/-- One `frequency.set(word, (frequency.get(word) || 0) + 1)` step on the
insertion-ordered `Map`, as an association list. -/
def bumpWordFreq (l : List (String × ℕ)) (word : String) : List (String × ℕ) :=
  if l.any (fun p => p.1 = word) then
    l.map (fun p => if p.1 = word then (p.1, p.2 + 1) else p)
  else l ++ [(word, 1)]

/-- `calculateWordFrequency`: word-frequency `Map` in insertion order. -/
def calculateWordFrequency (words : List String) : List (String × ℕ) :=
  words.foldl bumpWordFreq []

/-- `WordFrequency` record. -/
structure WordFrequency where
  word : String
  frequency : ℕ
  normalizedFrequency : ℚ
deriving DecidableEq, Repr

instance : Inhabited WordFrequency := ⟨⟨"", 0, 0⟩⟩

/-- `getTopKeywords`: normalize by the total count, sort descending by raw
frequency (stable) and keep the first `limit`. -/
def getTopKeywords (wordFreq : List (String × ℕ)) (limit : ℕ) : List WordFrequency :=
  let totalWords := (wordFreq.map (fun p => p.2)).sum
  ((List.insertionSort (fun a b => b.frequency ≤ a.frequency)
      (wordFreq.map (fun p =>
        WordFrequency.mk p.1 p.2 ((p.2 : ℚ) / (totalWords : ℚ))))).take limit)

/-- `NGram` record. -/
structure NGram where
  ngram : String
  frequency : ℕ
  positions : List ℕ
deriving DecidableEq, Repr

/-- The phrase `words.slice(i, i + n).join(' ')`. -/
def ngramKey (words : List String) (i n : ℕ) : String :=
  joinSep " " ((words.drop i).take n)

/-- One step of the n-gram `Map` update: bump the frequency and push the
start position. -/
def bumpNGram (l : List (String × ℕ × List ℕ)) (key : String) (i : ℕ) :
    List (String × ℕ × List ℕ) :=
  if l.any (fun p => p.1 = key) then
    l.map (fun p => if p.1 = key then (p.1, p.2.1 + 1, p.2.2 ++ [i]) else p)
  else l ++ [(key, 1, [i])]

/-- The loop bounds of `generateNGrams`: `for (i = 0; i <= words.length - n)`
over JS numbers runs for no `i` when `words.length < n`. -/
def ngramStarts (len n : ℕ) : List ℕ :=
  if len < n then [] else List.range (len - n + 1)

/-- The n-gram frequency/position `Map` of `generateNGrams`, in insertion
order. -/
def ngramTable (words : List String) (n : ℕ) : List (String × ℕ × List ℕ) :=
  (ngramStarts words.length n).foldl
    (fun acc i => bumpNGram acc (ngramKey words i n) i) []

/-- `generateNGrams`: keep n-grams of frequency above 1, sort descending by
frequency (stable) and keep the first `limit`. -/
def generateNGrams (words : List String) (n limit : ℕ) : List NGram :=
  ((List.insertionSort (fun a b => b.frequency ≤ a.frequency)
      (((ngramTable words n).map (fun p => NGram.mk p.1 p.2.1 p.2.2)).filter
        (fun ng => 1 < ng.frequency)))).take limit

/-- `simpleStem`: strip the first matching suffix of
`ing, ed, er, est, ly, s` whose removal keeps the stem longer than
`suffix.length + 2`, then stop (the loop `break`s). -/
def stemTry (word : String) : List String → String
  | [] => word
  | suffix :: rest =>
    if (suffix.data <:+ word.data) ∧ suffix.length + 2 < word.length then
      String.mk (word.data.take (word.data.length - suffix.data.length))
    else stemTry word rest

/-- `simpleStem` with the fixed suffix list of the source. -/
def simpleStem (word : String) : String :=
  stemTry word ["ing", "ed", "er", "est", "ly", "s"]

/-- `countCommonCharacters`: the number of distinct characters of `word1`
that occur in `word2`. -/
def countCommonCharacters (word1 word2 : String) : ℕ :=
  (word1.data.dedup.filter (fun c => word2.data.contains c)).length

/-- `word1.includes(word2)` of JS: `word2` is a contiguous substring. -/
def strIncludes (word1 word2 : String) : Bool :=
  decide (word2.data <:+: word1.data)

/-- `areWordsRelated`: same naive stem, or lengths within 2 and common-character
ratio strictly above 0.6, or one a substring of the other. -/
def areWordsRelated (word1 word2 : String) : Bool :=
  if simpleStem word1 = simpleStem word2 then true
  else if decide (|(word1.length : ℤ) - (word2.length : ℤ)| ≤ 2) &&
      decide ((3 : ℚ)/5 <
        (countCommonCharacters word1 word2 : ℚ) / (max word1.length word2.length : ℚ)) then
    true
  else strIncludes word1 word2 || strIncludes word2 word1

/-- The inner loop shared by `groupSemanticKeywords` and
`groupSimilarKeywords`: starting from `group = [keyword]` and
`used ∪ {keyword.word}`, scan the whole keyword list and absorb every not-yet
used related keyword. Returns the group and the updated `used` set. -/
def collectRelated (kw : WordFrequency) (keywords : List WordFrequency)
    (used : List String) : List WordFrequency × List String :=
  keywords.foldl
    (fun acc other =>
      if acc.2.contains other.word then acc
      else if areWordsRelated kw.word other.word then
        (acc.1 ++ [other], acc.2 ++ [other.word])
      else acc)
    ([kw], used ++ [kw.word])

/-- The outer loop of `groupSemanticKeywords`: every group is pushed. -/
def groupSemanticAux (keywords : List WordFrequency) :
    List WordFrequency → List String → List (List WordFrequency)
  | [], _ => []
  | kw :: rest, used =>
    if used.contains kw.word then groupSemanticAux keywords rest used
    else
      let p := collectRelated kw keywords used
      p.1 :: groupSemanticAux keywords rest p.2

/-- `groupSemanticKeywords` (used by `extractTopics`): group by relatedness,
keep non-empty groups. -/
def groupSemanticKeywords (keywords : List WordFrequency) :
    List (List WordFrequency) :=
  (groupSemanticAux keywords keywords []).filter (fun group => 0 < group.length)

/-- The outer loop of `groupSimilarKeywords`: a group is pushed only when it
has at least 2 members or its first member (`group[0]`) has raw frequency at
least 3. -/
def groupSimilarAux (keywords : List WordFrequency) :
    List WordFrequency → List String → List (List WordFrequency)
  | [], _ => []
  | kw :: rest, used =>
    if used.contains kw.word then groupSimilarAux keywords rest used
    else
      let p := collectRelated kw keywords used
      if 2 ≤ p.1.length ∨ 3 ≤ (p.1.headD kw).frequency then
        p.1 :: groupSimilarAux keywords rest p.2
      else groupSimilarAux keywords rest p.2

/-- `groupSimilarKeywords` (used by `extractGlobalThemes`): sort by raw
frequency descending first, group by relatedness keeping groups with two or
more members or a high-frequency singleton, and keep at most 5 groups. -/
def groupSimilarKeywords (keywords : List WordFrequency) :
    List (List WordFrequency) :=
  let sortedKeywords :=
    List.insertionSort (fun a b => b.frequency ≤ a.frequency) keywords
  (groupSimilarAux sortedKeywords sortedKeywords []).take 5

/-- `extractTopics`: comma-joined semantic groups of size at least 2 over the
top 10 keywords, then up to 5 bigrams of frequency at least 2, capped at 8. -/
def extractTopics (keywords : List WordFrequency) (bigrams : List NGram) :
    List String :=
  let topKeywords := keywords.take 10
  let semanticGroups := groupSemanticKeywords topKeywords
  let fromGroups := (semanticGroups.filter (fun group => 2 ≤ group.length)).map
    (fun group => joinSep ", " (group.map (fun kw => kw.word)))
  let meaningfulBigrams := ((bigrams.filter (fun bg => 2 ≤ bg.frequency)).take 5).map
    (fun bg => bg.ngram)
  (fromGroups ++ meaningfulBigrams).take 8

/-- The positive word list of `calculateSentiment`. -/
def positiveWords : List String :=
  ["good", "great", "excellent", "amazing", "wonderful", "fantastic", "awesome",
   "love", "like", "enjoy", "happy", "pleased", "satisfied", "positive",
   "success", "successful", "achievement", "progress", "improvement", "better"]

/-- The negative word list of `calculateSentiment`. -/
def negativeWords : List String :=
  ["bad", "terrible", "awful", "horrible", "hate", "dislike", "sad", "angry",
   "frustrated", "disappointed", "negative", "problem", "issue", "failure",
   "difficult", "hard", "challenging", "struggle", "worse", "worst"]

/-- `calculateSentiment`: `(positive - negative) / (positive + negative)`,
`0` when there are no hits. -/
def calculateSentiment (text : String) : ℚ :=
  let words := extractWords text
  let positive := (words.filter (fun word => positiveWords.contains word)).length
  let negative := (words.filter (fun word => negativeWords.contains word)).length
  if positive + negative = 0 then 0
  else ((positive : ℚ) - (negative : ℚ)) / ((positive : ℚ) + (negative : ℚ))

/-- `calculateReadability`: sentences split on `.`/`!`/`?` with blank
fragments dropped; `100 - (avgWordsPerSentence·0.39 + avgCharsPerWord·11.8)`
clamped into `[0, 100]`; `0` when there are no sentences or no words. -/
def calculateReadability (text : String) : ℚ :=
  let sentences := (splitChars (fun c => c = '.' || c = '!' || c = '?') text.data []).filter
    (fun s => s.data.any (fun c => !c.isWhitespace))
  let words := extractWords text
  if sentences.length = 0 ∨ words.length = 0 then 0
  else
    let avgWordsPerSentence : ℚ := (words.length : ℚ) / (sentences.length : ℚ)
    let avgCharsPerWord : ℚ :=
      ((text.data.filter (fun c => !c.isWhitespace)).length : ℚ) / (words.length : ℚ)
    let complexity := avgWordsPerSentence * (39/100) + avgCharsPerWord * (118/10)
    max 0 (min 100 (100 - complexity))

/-- The `ThemeAnalysis` result record. -/
structure ThemeAnalysis where
  keywords : List WordFrequency
  bigrams : List NGram
  trigrams : List NGram
  topics : List String
  sentiment : ℚ
  readability : ℚ
  wordCount : ℕ
  uniqueWords : ℕ
deriving DecidableEq, Repr

/-- `analyzeNotes`, with the note previews joined by a space as in
`searchResults.map(r => r.preview).join(' ')`. -/
def analyzeNotes (noteTexts : List String) : ThemeAnalysis :=
  let combinedText := joinSep " " noteTexts
  let words := extractWords combinedText
  let cleanWords := words.filter cleanFilter
  let wordFreq := calculateWordFrequency cleanWords
  let keywords := getTopKeywords wordFreq 20
  let bigrams := generateNGrams cleanWords 2 15
  let trigrams := generateNGrams cleanWords 3 10
  let topics := extractTopics keywords bigrams
  let sentiment := calculateSentiment combinedText
  let readability := calculateReadability combinedText
  ⟨keywords, bigrams, trigrams, topics, sentiment, readability,
    words.length, words.dedup.length⟩

/-- The computational content of a stored `GlobalTheme` (ids, note ids and
timestamps are opaque caller data). -/
structure GlobalTheme where
  keywords : List String
  score : ℚ
  frequency : ℕ
deriving DecidableEq, Repr

/-- The theme built from one keyword group in `extractGlobalThemes`: score is
the sum of normalized frequencies over the group size, frequency the sum of
raw frequencies. -/
def mkGlobalTheme (group : List WordFrequency) : GlobalTheme :=
  ⟨group.map (fun kw => kw.word),
   (group.map (fun kw => kw.normalizedFrequency)).sum / (group.length : ℚ),
   (group.map (fun kw => kw.frequency)).sum⟩

/-- `extractGlobalThemes` (pure part; database storage is external): group
`analysis.keywords` — the top-20 keyword list — and sort the resulting themes
descending by score. -/
def extractGlobalThemes (noteTexts : List String) : List GlobalTheme :=
  let analysis := analyzeNotes noteTexts
  let keywordGroups := groupSimilarKeywords analysis.keywords
  List.insertionSort (fun a b => b.score ≤ a.score) (keywordGroups.map mkGlobalTheme)

/-- Modelled from the spec: the full keyword-frequency map of the corpus
slice with normalized frequencies, NOT restricted to the top 20 keywords
("the full (unfiltered-by-top-20) keyword-frequency map"). -/
def allKeywords (noteTexts : List String) : List WordFrequency :=
  let words := extractWords (joinSep " " noteTexts)
  let cleanWords := words.filter cleanFilter
  let wordFreq := calculateWordFrequency cleanWords
  let totalWords := (wordFreq.map (fun p => p.2)).sum
  wordFreq.map (fun p => WordFrequency.mk p.1 p.2 ((p.2 : ℚ) / (totalWords : ℚ)))

/-- Modelled from the spec: `extractGlobalThemes` as §4.6 words it, grouping
the FULL keyword-frequency map with the same relatedness test, same filters
and cap, scored and sorted the same way. -/
def extractGlobalThemesSpec (noteTexts : List String) : List GlobalTheme :=
  List.insertionSort (fun a b => b.score ≤ a.score)
    ((groupSimilarKeywords (allKeywords noteTexts)).map mkGlobalTheme)

/-- A corpus with 21 distinct keywords: `jumping` four times, nineteen
unrelated fillers twice each, and `jump` once.  The frequency map has 21
entries, so the top-20 cut drops `jump`, while the full map keeps it, and
`jump` is related to `jumping` (equal naive stems). -/
def mixedCorpus : List String :=
  ["jumping jumping jumping jumping aa1 aa1 bb1 bb1 cc1 cc1 dd1 dd1 ee1 ee1 " ++
   "ff1 ff1 gg1 gg1 hh1 hh1 ii1 ii1 jj1 jj1 kk1 kk1 ll1 ll1 mm1 mm1 nn1 nn1 " ++
   "oo1 oo1 pp1 pp1 qq1 qq1 rr1 rr1 ss1 ss1 jump"]

/-! ## The Visualizer (t-SNE and k-means) -/

/-- Squared Euclidean distance between two coordinate rows (the inner
`diff * diff` accumulation loops). -/
def sqDist (a b : List ℚ) : ℚ :=
  (List.zipWith (fun x y => (x - y) * (x - y)) a b).sum

/-- `computeDistances`: the symmetric pairwise matrix of Euclidean distances
(`Math.sqrt` of the squared distance, modelled by the parameter `sqrtQ`);
the diagonal stays 0. -/
def computeDistances (sqrtQ : ℚ → ℚ) (embeddings : List (List ℚ)) :
    List (List ℚ) :=
  let n := embeddings.length
  (List.range n).map (fun i => (List.range n).map (fun j =>
    if i = j then 0
    else sqrtQ (sqDist (embeddings.getD i []) (embeddings.getD j []))))

/-- The state of the per-point binary search for `beta` in
`computeProbabilities`.  `betaMax` starts at `Infinity`, modelled as `none`;
`done` models the `break` on entropy convergence. -/
structure BetaSearchState where
  beta : ℚ
  betaMin : ℚ
  betaMax : Option ℚ
  row : List ℚ
  done : Bool
deriving Repr

/-- One iteration of the 50-step binary search of `computeProbabilities` for
point `i`: recompute the unnormalized Gibbs row `exp(-beta·d²)` (the diagonal
is never written and stays 0), and when the row sum is positive compare the
entropy `beta·H/sum + log sum` against `log perplexity`, stopping within
`1e-5` and otherwise moving `beta` toward its bracketing bounds (doubling
while no upper bound exists). -/
def betaStep (expQ logQ : ℚ → ℚ) (distRow : List ℚ) (i : ℕ) (logPerp : ℚ)
    (st : BetaSearchState) : BetaSearchState :=
  if st.done then st
  else
    let n := distRow.length
    let row := (List.range n).map (fun j =>
      if i = j then 0
      else expQ (-st.beta * distRow.getD j 0 * distRow.getD j 0))
    let sum := (((List.range n).filter (fun j => j ≠ i)).map
      (fun j => row.getD j 0)).sum
    let H0 := (((List.range n).filter (fun j => j ≠ i)).map
      (fun j => row.getD j 0 * distRow.getD j 0 * distRow.getD j 0)).sum
    if 0 < sum then
      let H := st.beta * H0 / sum + logQ sum
      let Hdiff := H - logPerp
      if |Hdiff| < 1/100000 then ⟨st.beta, st.betaMin, st.betaMax, row, true⟩
      else if 0 < Hdiff then
        match st.betaMax with
        | none => ⟨st.beta * 2, st.beta, none, row, false⟩
        | some bMax => ⟨(st.beta + bMax) / 2, st.beta, some bMax, row, false⟩
      else ⟨(st.beta + st.betaMin) / 2, st.betaMin, some st.beta, row, false⟩
    else ⟨st.beta, st.betaMin, st.betaMax, row, false⟩

/-- `computeProbabilities`: run the 50-iteration beta search per point
(beta starts at 1, betaMin at 0, betaMax at Infinity, the row at zeros),
normalize each row by its off-diagonal sum when positive, and symmetrize
`P[i][j] = (P[i][j] + P[j][i]) / (2n)`. -/
def computeProbabilities (expQ logQ : ℚ → ℚ) (distances : List (List ℚ))
    (perplexity : ℚ) : List (List ℚ) :=
  let n := distances.length
  let logPerp := logQ perplexity
  let rows := (List.range n).map (fun i =>
    let st := (betaStep expQ logQ (distances.getD i []) i logPerp)^[50]
      ⟨1, 0, none, List.replicate n 0, false⟩
    let row := st.row
    let sum := (((List.range n).filter (fun j => j ≠ i)).map
      (fun j => row.getD j 0)).sum
    if 0 < sum then row.map (fun p => p / sum) else row)
  (List.range n).map (fun i => (List.range n).map (fun j =>
    ((rows.getD i []).getD j 0 + (rows.getD j []).getD i 0) / (2 * (n : ℚ))))

/-- `computeLowDimProbabilities`: Student-t affinities `1/(1 + ‖Yi-Yj‖²)`
for `i ≠ j`, the total `sum += 2·qij` over pairs `i < j`, and, when the sum
is positive, normalization of every entry floored at `1e-12` (the zero
diagonal becomes the floor `1e-12`, exactly as in the source). -/
def computeLowDimProbabilities (Y : List (List ℚ)) : List (List ℚ) :=
  let n := Y.length
  let raw := (List.range n).map (fun i => (List.range n).map (fun j =>
    if i = j then 0 else 1 / (1 + sqDist (Y.getD i []) (Y.getD j []))))
  let sum := ((List.range n).map (fun i =>
    (((List.range n).filter (fun j => i < j)).map
      (fun j => 2 * (raw.getD i []).getD j 0)).sum)).sum
  if 0 < sum then
    raw.map (fun r => r.map (fun q => max (q / sum) (1 / 1000000000000)))
  else raw

/-- The gradient row for point `i` in `computeGradient`: starting from zeros
(the reset loop), accumulate `factor · (Y[i] - Y[j])` over all `j ≠ i` with
`factor = (P[i][j] - Q[i][j]) / (1 + ‖Yi-Yj‖²)`.  There is NO leading
factor 4 in the source. -/
def gradRow (P Q Y : List (List ℚ)) (i : ℕ) : List ℚ :=
  let n := Y.length
  let dims := (Y.getD 0 []).length
  (List.range n).foldl (fun row j =>
    if i ≠ j then
      let mult := (P.getD i []).getD j 0 - (Q.getD i []).getD j 0
      let dist := sqDist (Y.getD i []) (Y.getD j [])
      let factor := mult / (1 + dist)
      List.zipWith (fun r d => r + factor * d) row
        (List.zipWith (fun a b => a - b) (Y.getD i []) (Y.getD j []))
    else row) (List.replicate dims 0)

/-- `computeGradient` as a pure function: the matrix `dY` after the reset and
accumulation loops. -/
def computeGradient (P Q Y : List (List ℚ)) : List (List ℚ) :=
  (List.range Y.length).map (fun i => gradRow P Q Y i)

/-- Modelled from the spec: the standard t-SNE gradient formula of §4.3,
`4·Σ_j (P[i][j]-Q[i][j])·(Y_i-Y_j)·(1+‖Y_i-Y_j‖²)⁻¹`, at point `i`,
coordinate `k`. -/
def tsneGradientSpec (P Q Y : List (List ℚ)) (i k : ℕ) : ℚ :=
  4 * (((List.range Y.length).filter (fun j => j ≠ i)).map (fun j =>
    ((P.getD i []).getD j 0 - (Q.getD i []).getD j 0) *
      ((Y.getD i []).getD k 0 - (Y.getD j []).getD k 0) *
      (1 + sqDist (Y.getD i []) (Y.getD j []))⁻¹)).sum

/-- `centerData`: subtract the per-axis mean from every row. -/
def centerData (Y : List (List ℚ)) : List (List ℚ) :=
  let n := Y.length
  let dims := (Y.getD 0 []).length
  let means := (List.range dims).map (fun j =>
    ((Y.map (fun row => row.getD j 0)).sum) / (n : ℚ))
  Y.map (fun row => List.zipWith (fun y m => y - m) row means)

/-- `Math.sign`. -/
def jsign (q : ℚ) : ℚ := if 0 < q then 1 else if q < 0 then -1 else 0

/-- The mutable loop state of `runTSNE`'s gradient descent. -/
structure TSNEState where
  Y : List (List ℚ)
  uY : List (List ℚ)
  gains : List (List ℚ)
  eta : ℚ
deriving Repr

/-- One gradient-descent iteration of `runTSNE`: recompute `Q`, the gradient
`dY`, update the adaptive gains (add 0.2 on a sign flip of the gradient
against the previous update, else times 0.8, floored at 0.01), apply the
momentum-0.8 update, re-center, and quarter the learning rate down to the
floor 50 once at iteration 250. -/
def tsneIter (P : List (List ℚ)) (st : TSNEState) (iter : ℕ) : TSNEState :=
  let Q := computeLowDimProbabilities st.Y
  let dY := computeGradient P Q st.Y
  let gains := List.zipWith3 (List.zipWith3 (fun g d u =>
    max (if jsign d ≠ jsign u then g + 1/5 else g * (4/5)) (1/100)))
    st.gains dY st.uY
  let uY := List.zipWith3 (List.zipWith3 (fun u g d => (4/5) * u - st.eta * g * d))
    st.uY gains dY
  let Y := List.zipWith (List.zipWith (fun y u => y + u)) st.Y uY
  let Ycentered := centerData Y
  let eta := if iter = 250 then max (st.eta / 4) 50 else st.eta
  ⟨Ycentered, uY, gains, eta⟩

/-- `runTSNE`: random initial layout of magnitude `1e-4` (the `Math.random`
stream is the parameter `rand`), the fixed `P` from `computeProbabilities`
over the pairwise distances, then `iterations` gradient-descent steps;
momentum is 0.8 and the gains start at 1, the velocities `uY` at 0. -/
def runTSNE (sqrtQ expQ logQ : ℚ → ℚ) (rand : ℕ → ℕ → ℚ)
    (embeddings : List (List ℚ)) (perplexity : ℚ) (iterations : ℕ)
    (learningRate : ℚ) : List (List ℚ) :=
  let n := embeddings.length
  let dims := 2
  let Y0 := (List.range n).map (fun i => (List.range dims).map (fun j =>
    (rand i j - 1/2) * (1/10000)))
  let distances := computeDistances sqrtQ embeddings
  let P := computeProbabilities expQ logQ distances perplexity
  let final := (List.range iterations).foldl (fun st iter => tsneIter P st iter)
    ⟨Y0, List.replicate n (List.replicate dims 0),
      List.replicate n (List.replicate dims 1), learningRate⟩
  final.Y

/-- The distance loop of `assignClusters`'s assignment phase, over
`d < dims`. -/
def sqDistTo (dims : ℕ) (p c : List ℚ) : ℚ :=
  ((List.range dims).map (fun d =>
    (p.getD d 0 - c.getD d 0) * (p.getD d 0 - c.getD d 0))).sum

/-- The assignment phase for one point: scan centroids `c = 0, …, k-1`
keeping the first strict minimum; `minDist` starts at `Infinity` (modelled by
`none`), `bestCluster` at 0. -/
def nearestCentroid (dims : ℕ) (p : List ℚ) (centroids : List (List ℚ))
    (k : ℕ) : ℕ :=
  ((List.range k).foldl (fun acc c =>
    let dist := sqDistTo dims p (centroids.getD c [])
    match acc.1 with
    | none => (some dist, c)
    | some m => if dist < m then (some dist, c) else acc)
    ((none : Option ℚ), 0)).2

/-- The centroid-update phase: each centroid becomes the mean of its assigned
points, and keeps its position when no point is assigned to it. -/
def updateCentroids (points : List (List ℚ)) (clusters : List ℕ)
    (centroids : List (List ℚ)) (k dims : ℕ) : List (List ℚ) :=
  (List.range k).map (fun c =>
    let members := (points.zip clusters).filter (fun pc => pc.2 = c)
    if members.length = 0 then centroids.getD c []
    else (List.range dims).map (fun d =>
      ((members.map (fun pc => pc.1.getD d 0)).sum) / (members.length : ℚ)))

/-- One k-means iteration: assign every point to its nearest centroid, then
recompute the centroids. -/
def kmeansIter (points : List (List ℚ)) (k dims : ℕ)
    (st : List (List ℚ) × List ℕ) : List (List ℚ) × List ℕ :=
  let clusters := points.map (fun p => nearestCentroid dims p st.1 k)
  (updateCentroids points clusters st.1 k dims, clusters)

/-- `assignClusters`: all zeros when `numClusters <= 1`; otherwise k-means
with random initial centroids in `(-1, 1)` (`Math.random()*2 - 1`, the stream
is the parameter `rand`) for a fixed 50 iterations, returning the final
assignment. -/
def assignClusters (rand : ℕ → ℕ → ℚ) (points : List (List ℚ))
    (numClusters : ℕ) : List ℕ :=
  if numClusters ≤ 1 then points.map (fun _ => 0)
  else
    let n := points.length
    let dims := (points.getD 0 []).length
    let centroids0 := (List.range numClusters).map (fun c =>
      (List.range dims).map (fun d => rand c d * 2 - 1))
    ((kmeansIter points numClusters dims)^[50] (centroids0, List.replicate n 0)).2

/-- A rendered visualization point. -/
structure ClusterPoint where
  id : String
  x : ℚ
  y : ℚ
  cluster : ℕ
  color : String
deriving DecidableEq, Repr

instance : Inhabited ClusterPoint := ⟨⟨"", 0, 0, 0, ""⟩⟩

/-- The fixed 15-entry palette of `getClusterColor`. -/
def clusterColors : List String :=
  ["#FF6B6B", "#4ECDC4", "#45B7D1", "#96CEB4", "#FECA57",
   "#FF9FF3", "#54A0FF", "#5F27CD", "#00D2D3", "#FF9F43",
   "#FD79A8", "#A29BFE", "#6C5CE7", "#74B9FF", "#81ECEC"]

/-- `getClusterColor`: palette indexed modulo its length. -/
def getClusterColor (cluster : ℕ) : String :=
  clusterColors.getD (cluster % clusterColors.length) ""

/-- The result record of `generateTSNEVisualization` (its stored `perplexity`
is the caller-requested one, not the clamped one). -/
structure TSNEResult where
  points : List ClusterPoint
  clusters : ℕ
  perplexity : ℚ
  iterations : ℕ
deriving DecidableEq, Repr

/-- `generateTSNEVisualization`, with the database lookup already resolved:
each search result carries its id and the embedding found for it (`none` when
the note has no usable embedding; such inputs are skipped, not zero-filled).
The projector and the partitioner are parameters (`runTSNE` and
`assignClusters` in the source).  Fails when fewer than 2 usable embeddings
remain; otherwise projects with perplexity clamped to `floor(N/3)` and
partitions the 2-D result into `min(5, floor(N/3))` clusters. -/
def generateTSNEVisualization
    (project : List (List ℚ) → ℚ → ℕ → ℚ → List (List ℚ))
    (assign : List (List ℚ) → ℕ → List ℕ)
    (results : List (String × Option (List ℚ)))
    (perplexity : ℚ) (iterations : ℕ) (learningRate : ℚ) :
    Except String TSNEResult :=
  let embeddings := results.filterMap (fun r => r.2)
  let validResults := (results.filter (fun r => r.2.isSome)).map (fun r => r.1)
  if embeddings.length < 2 then
    Except.error "Not enough embeddings for visualization"
  else
    let tsneResult := project embeddings
      (min perplexity ((embeddings.length / 3 : ℕ) : ℚ)) iterations learningRate
    let clusters := assign tsneResult (min 5 (embeddings.length / 3))
    let points := (List.range validResults.length).map (fun index =>
      ClusterPoint.mk (validResults.getD index "")
        ((tsneResult.getD index []).getD 0 0)
        ((tsneResult.getD index []).getD 1 0)
        (clusters.getD index 0)
        (getClusterColor (clusters.getD index 0)))
    Except.ok ⟨points, clusters.foldl max 0 + 1, perplexity, iterations⟩

end ObsAutoSort

namespace ObsAutoSort

/-! ## Theorems for C1, C3, C9 -/

theorem take_subset_of_insertionSort {α : Type} {r : α → α → Prop}
    [DecidableRel r] {l : List α} {x : α} {n : ℕ}
    (hx : x ∈ (List.insertionSort r l).take n) : x ∈ l := by
  have h1 : x ∈ List.insertionSort r l := (List.take_sublist n _).mem hx
  exact (List.mem_insertionSort r).1 h1

theorem foldl_max_init_le (f : List ℚ → ℚ) (l : List (List ℚ)) (acc : ℚ) :
    acc ≤ l.foldl (fun m e => max m (f e)) acc := by
  induction l generalizing acc with
  | nil => simp
  | cons a t ih => exact le_trans (le_max_left _ _) (ih _)

theorem foldl_max_mem_le (f : List ℚ → ℚ) (l : List (List ℚ)) (acc : ℚ) :
    ∀ e ∈ l, f e ≤ l.foldl (fun m e => max m (f e)) acc := by
  induction l generalizing acc with
  | nil => simp
  | cons a t ih =>
    intro e he
    rcases List.mem_cons.1 he with rfl | he
    · exact le_trans (le_max_right _ _) (foldl_max_init_le f t _)
    · exact ih _ e he

theorem foldl_max_eq_init_or_mem (f : List ℚ → ℚ) (l : List (List ℚ)) (acc : ℚ) :
    l.foldl (fun m e => max m (f e)) acc = acc ∨
      ∃ e ∈ l, l.foldl (fun m e => max m (f e)) acc = f e := by
  induction l generalizing acc with
  | nil => simp
  | cons a t ih =>
    rcases ih (max acc (f a)) with h | ⟨e, he, heq⟩
    · rcases max_choice acc (f a) with hm | hm
      · left
        simpa [hm] using h
      · right
        exact ⟨a, List.mem_cons_self a t, by simpa [hm] using h⟩
    · right
      exact ⟨e, List.mem_cons_of_mem a he, heq⟩

theorem foldl_max_all_neg (f : List ℚ → ℚ) (l : List (List ℚ))
    (h : ∀ e ∈ l, f e < 0) : l.foldl (fun m e => max m (f e)) 0 = 0 := by
  induction l with
  | nil => simp
  | cons a t ih =>
    have ha : f a < 0 := h a (List.mem_cons_self a t)
    have : max (0 : ℚ) (f a) = 0 := max_eq_left (le_of_lt ha)
    simp only [List.foldl_cons, this]
    exact ih (fun e he => h e (List.mem_cons_of_mem a he))

/-- Claim C1 (counterexample): `calculateCosineSimilarity` applied to vectors
of unequal length returns the numeric value `0`; it does not fail with a
`DimensionMismatch` error. -/
theorem calculateCosineSimilarity_mismatch_counterexample :
    calculateCosineSimilarity (fun q => q) [1] [1, 2] = 0 := by
  decide

/-- Claim C1 (amended): for every pair of vectors of unequal length,
`calculateCosineSimilarity` returns `0` (a numeric value) instead of failing
with a `DimensionMismatch` error. -/
theorem calculateCosineSimilarity_mismatch_returns_zero
    (sqrtQ : ℚ → ℚ) (vecA vecB : List ℚ) (h : vecA.length ≠ vecB.length) :
    calculateCosineSimilarity sqrtQ vecA vecB = 0 := by
  simp [calculateCosineSimilarity, h]

/-- Witness for `calculateCosineSimilarity_mismatch_returns_zero` at a
concrete input. -/
theorem calculateCosineSimilarity_mismatch_returns_zero_witness :
    ([(1 : ℚ)].length ≠ [(1 : ℚ), 2].length) ∧
      calculateCosineSimilarity (fun q => q + 1) [1] [1, 2] = 0 :=
  ⟨by decide, calculateCosineSimilarity_mismatch_returns_zero _ _ _ (by decide)⟩

/-- Claim C3: for every query vector, candidate set, limit and threshold, the
primary path of `searchSimilarNotes` returns at most `limit` results, every
returned result has similarity `≥ threshold`, and the returned list is sorted
non-increasing by similarity. -/
theorem searchSimilarNotes_spec (sqrtQ : ℚ → ℚ) (queryEmbedding : List ℚ)
    (noteRows : List (String × List (List ℚ))) (limit : ℕ) (threshold : ℚ) :
    (searchSimilarNotes sqrtQ queryEmbedding noteRows limit threshold).length ≤ limit ∧
    (∀ hit ∈ searchSimilarNotes sqrtQ queryEmbedding noteRows limit threshold,
      threshold ≤ hit.similarity) ∧
    (searchSimilarNotes sqrtQ queryEmbedding noteRows limit threshold).Pairwise
      (fun a b => b.similarity ≤ a.similarity) := by
  unfold searchSimilarNotes
  refine ⟨List.length_take_le _ _, ?_, ?_⟩
  · intro hit hmem
    have hmem' := take_subset_of_insertionSort hmem
    rcases List.mem_filterMap.1 hmem' with ⟨r, _, hr⟩
    by_cases hth : threshold ≤ noteMaxSimilarity sqrtQ queryEmbedding r.2
    · simp only [hth, if_pos] at hr
      cases hr
      exact hth
    · simp [hth] at hr
  · haveI : IsTotal SearchHit (fun a b => b.similarity ≤ a.similarity) :=
      ⟨fun a b => le_total b.similarity a.similarity⟩
    haveI : IsTrans SearchHit (fun a b => b.similarity ≤ a.similarity) :=
      ⟨fun _ _ _ hab hbc => le_trans hbc hab⟩
    have hs := List.sorted_insertionSort
      (fun a b : SearchHit => b.similarity ≤ a.similarity)
      (List.filterMap (fun r =>
        let s := noteMaxSimilarity sqrtQ queryEmbedding r.2
        if threshold ≤ s then some (⟨r.1, s⟩ : SearchHit) else none) noteRows)
    exact hs.sublist (List.take_sublist limit _)

/-- Claim C9: in the primary search path the reported similarity of a note is
the maximum of `0` and the cosine similarities of its chunk embeddings (hence
never negative), and with a non-positive threshold a note all of whose chunk
similarities are negative is still returned with similarity `0`. -/
theorem searchSimilarNotes_similarity_floored_at_zero
    (sqrtQ : ℚ → ℚ) (queryEmbedding : List ℚ)
    (noteRows : List (String × List (List ℚ))) (limit : ℕ) (threshold : ℚ)
    (id : String) (embs : List (List ℚ))
    (hmem : (id, embs) ∈ noteRows) (hth : threshold ≤ 0)
    (hneg : ∀ e ∈ embs, calculateCosineSimilarity sqrtQ queryEmbedding e < 0)
    (hlim : noteRows.length ≤ limit) :
    (∀ es : List (List ℚ),
        0 ≤ noteMaxSimilarity sqrtQ queryEmbedding es ∧
        (∀ e ∈ es, calculateCosineSimilarity sqrtQ queryEmbedding e ≤
          noteMaxSimilarity sqrtQ queryEmbedding es) ∧
        (noteMaxSimilarity sqrtQ queryEmbedding es = 0 ∨
          ∃ e ∈ es, noteMaxSimilarity sqrtQ queryEmbedding es =
            calculateCosineSimilarity sqrtQ queryEmbedding e)) ∧
    noteMaxSimilarity sqrtQ queryEmbedding embs = 0 ∧
    (⟨id, 0⟩ : SearchHit) ∈
      searchSimilarNotes sqrtQ queryEmbedding noteRows limit threshold := by
  have hzero : noteMaxSimilarity sqrtQ queryEmbedding embs = 0 :=
    foldl_max_all_neg _ embs hneg
  refine ⟨?_, hzero, ?_⟩
  · intro es
    refine ⟨foldl_max_init_le _ es 0, foldl_max_mem_le _ es 0, ?_⟩
    rcases foldl_max_eq_init_or_mem
        (calculateCosineSimilarity sqrtQ queryEmbedding) es 0 with h | ⟨e, he, heq⟩
    · exact Or.inl h
    · exact Or.inr ⟨e, he, heq⟩
  · unfold searchSimilarNotes
    set results := noteRows.filterMap (fun r =>
      let s := noteMaxSimilarity sqrtQ queryEmbedding r.2
      if threshold ≤ s then some (⟨r.1, s⟩ : SearchHit) else none) with hres
    have hhit : (⟨id, 0⟩ : SearchHit) ∈ results := by
      rw [hres]
      refine List.mem_filterMap.2 ⟨(id, embs), hmem, ?_⟩
      simp only [hzero, hth, if_pos]
    have hlen : results.length ≤ limit := by
      calc results.length ≤ noteRows.length := List.length_filterMap_le _ _
        _ ≤ limit := hlim
    have hsortmem : (⟨id, 0⟩ : SearchHit) ∈
        List.insertionSort (fun a b => b.similarity ≤ a.similarity) results :=
      (List.mem_insertionSort _).2 hhit
    have htake : (List.insertionSort
        (fun a b => b.similarity ≤ a.similarity) results).take limit =
        List.insertionSort (fun a b => b.similarity ≤ a.similarity) results := by
      apply List.take_of_length_le
      simpa [List.length_insertionSort] using hlen
    rw [htake]
    exact hsortmem

/-- Witness for `searchSimilarNotes_similarity_floored_at_zero` at a concrete
input: one note with a single chunk embedding of negative cosine similarity,
threshold `-1`, limit `1`. -/
theorem searchSimilarNotes_similarity_floored_at_zero_witness :
    (("a", [[(-1 : ℚ)]]) ∈ [("a", [[(-1 : ℚ)]])]) ∧ ((-1 : ℚ) ≤ 0) ∧
    (∀ e ∈ [[(-1 : ℚ)]], calculateCosineSimilarity (fun q => q) [1] e < 0) ∧
    ([("a", [[(-1 : ℚ)]])].length ≤ 1) ∧
    (noteMaxSimilarity (fun q => q) [1] [[(-1 : ℚ)]] = 0 ∧
      (⟨"a", 0⟩ : SearchHit) ∈ searchSimilarNotes (fun q => q) [1]
        [("a", [[(-1 : ℚ)]])] 1 (-1)) := by
  refine ⟨by decide, by norm_num, by decide, by decide, ?_⟩
  have h := searchSimilarNotes_similarity_floored_at_zero (fun q => q) [1]
    [("a", [[(-1 : ℚ)]])] 1 (-1) "a" [[(-1 : ℚ)]]
    (by decide) (by norm_num) (by decide) (by decide)
  exact ⟨h.2.1, h.2.2⟩

/-! ## Theorems for C5 (analyzeNotes on empty input) -/

/-- Claim C5 (counterexample): on the empty note-text set `analyzeNotes`
returns a plain (empty) `ThemeAnalysis` value; no `InsufficientData` failure
is surfaced — the function's result is an analysis record, not a typed
error. -/
theorem analyzeNotes_empty_counterexample :
    analyzeNotes ([] : List String) = ⟨[], [], [], [], 0, 0, 0, 0⟩ := by
  decide

/-- Claim C5 (amended): for an empty note-text set (and for a single empty
note text), `analyzeNotes` silently returns the default empty analysis —
empty keyword, n-gram and topic lists, sentiment 0, readability 0,
wordCount 0, uniqueWords 0 — rather than surfacing `InsufficientData` as a
typed failure. -/
theorem analyzeNotes_empty_defaults :
    analyzeNotes ([] : List String) = ⟨[], [], [], [], 0, 0, 0, 0⟩ ∧
    analyzeNotes [""] = ⟨[], [], [], [], 0, 0, 0, 0⟩ := by
  constructor
  · decide
  · decide

/-! ## Theorems for C4 (extractGlobalThemes groups the top-20 list) -/

theorem collectRelated_fold_append (kw : WordFrequency) :
    ∀ (l : List WordFrequency) (acc : List WordFrequency × List String),
      ∃ tl, (l.foldl (fun acc other =>
          if acc.2.contains other.word then acc
          else if areWordsRelated kw.word other.word then
            (acc.1 ++ [other], acc.2 ++ [other.word])
          else acc) acc).1 = acc.1 ++ tl := by
  intro l
  induction l with
  | nil =>
    intro acc
    exact ⟨[], by simp⟩
  | cons a l ih =>
    intro acc
    simp only [List.foldl_cons]
    by_cases h1 : acc.2.contains a.word = true
    · rw [if_pos h1]
      exact ih acc
    · rw [if_neg h1]
      by_cases h2 : areWordsRelated kw.word a.word = true
      · rw [if_pos h2]
        rcases ih (acc.1 ++ [a], acc.2 ++ [a.word]) with ⟨tl, htl⟩
        exact ⟨[a] ++ tl, by simpa [List.append_assoc] using htl⟩
      · rw [if_neg h2]
        exact ih acc

theorem collectRelated_head (kw : WordFrequency) (keywords : List WordFrequency)
    (used : List String) :
    ∃ tl, (collectRelated kw keywords used).1 = kw :: tl := by
  unfold collectRelated
  rcases collectRelated_fold_append kw keywords ([kw], used ++ [kw.word]) with ⟨tl, htl⟩
  exact ⟨tl, by simpa using htl⟩

theorem groupSimilarAux_mem (keywords : List WordFrequency) :
    ∀ (rest : List WordFrequency) (used : List String) (g : List WordFrequency),
      g ∈ groupSimilarAux keywords rest used →
      ∃ kw tl, g = kw :: tl ∧
        (2 ≤ g.length ∨ (tl = [] ∧ 3 ≤ kw.frequency)) := by
  intro rest
  induction rest with
  | nil =>
    intro used g hg
    simp [groupSimilarAux] at hg
  | cons kw rest ih =>
    intro used g hg
    unfold groupSimilarAux at hg
    by_cases hused : used.contains kw.word
    · simp only [hused, if_true] at hg
      exact ih _ g hg
    · simp only [hused, if_false] at hg
      by_cases hcond : 2 ≤ (collectRelated kw keywords used).1.length ∨
          3 ≤ ((collectRelated kw keywords used).1.headD kw).frequency
      · simp only [hcond, if_true] at hg
        rcases List.mem_cons.1 hg with rfl | hg
        · rcases collectRelated_head kw keywords used with ⟨tl, htl⟩
          refine ⟨kw, tl, htl, ?_⟩
          by_cases hlen : 2 ≤ (collectRelated kw keywords used).1.length
          · exact Or.inl hlen
          · rcases hcond with h2 | h3
            · exact absurd h2 hlen
            · have hhd : (collectRelated kw keywords used).1.headD kw = kw := by
                rw [htl]
                rfl
              have htl0 : tl = [] := by
                have := htl ▸ hlen
                simp only [List.length_cons] at this
                have : tl.length = 0 := by omega
                exact List.length_eq_zero.1 this
              exact Or.inr ⟨htl0, hhd ▸ h3⟩
        · exact ih _ g hg
      · simp only [hcond, if_false] at hg
        exact ih _ g hg

/-- Claim C4 (counterexample): grouping the top-20 keyword list differs from
grouping the full keyword-frequency map.  On `mixedCorpus` the implementation
returns the singleton theme `jumping` (frequency 4), while the
specified-full-map pipeline returns the theme `jumping, jump` (frequency 5):
the word `jump`, number 21 in the frequency map, is cut by the top-20 filter
before grouping. -/
theorem extractGlobalThemes_full_map_counterexample :
    extractGlobalThemes mixedCorpus =
      [⟨["jumping"], 4/43, 4⟩] ∧
    extractGlobalThemesSpec mixedCorpus =
      [⟨["jumping", "jump"], 5/86, 5⟩] ∧
    extractGlobalThemes mixedCorpus ≠ extractGlobalThemesSpec mixedCorpus := by
  have h1 : extractGlobalThemes mixedCorpus = [⟨["jumping"], 4/43, 4⟩] := by
    decide
  have h2 : extractGlobalThemesSpec mixedCorpus =
      [⟨["jumping", "jump"], 5/86, 5⟩] := by
    decide
  refine ⟨h1, h2, ?_⟩
  rw [h1, h2]
  decide

/-- Claim C4 (amended): `extractGlobalThemes` groups the TOP-20 keyword list
(`analysis.keywords`), not the full keyword-frequency map, using the
relatedness test; it keeps only groups with at least 2 members or a singleton
of raw frequency at least 3, caps the result at 5 groups, scores each group
as the mean normalized frequency of its members with frequency the sum of the
member raw frequencies, and returns the groups sorted descending by score. -/
theorem extractGlobalThemes_top20_properties (noteTexts : List String) :
    extractGlobalThemes noteTexts =
      List.insertionSort (fun a b => b.score ≤ a.score)
        ((groupSimilarKeywords (analyzeNotes noteTexts).keywords).map mkGlobalTheme) ∧
    (extractGlobalThemes noteTexts).length ≤ 5 ∧
    (extractGlobalThemes noteTexts).Pairwise (fun a b => b.score ≤ a.score) ∧
    ∀ t ∈ extractGlobalThemes noteTexts,
      ∃ g ∈ groupSimilarKeywords (analyzeNotes noteTexts).keywords,
        t = mkGlobalTheme g ∧
        t.score = (g.map (fun kw => kw.normalizedFrequency)).sum / (g.length : ℚ) ∧
        t.frequency = (g.map (fun kw => kw.frequency)).sum ∧
        (2 ≤ t.keywords.length ∨ (t.keywords.length = 1 ∧ 3 ≤ t.frequency)) := by
  refine ⟨rfl, ?_, ?_, ?_⟩
  · calc (extractGlobalThemes noteTexts).length
        = ((groupSimilarKeywords (analyzeNotes noteTexts).keywords).map
            mkGlobalTheme).length := List.length_insertionSort _ _
      _ = (groupSimilarKeywords (analyzeNotes noteTexts).keywords).length :=
          List.length_map _ _
      _ ≤ 5 := List.length_take_le _ _
  · haveI : IsTotal GlobalTheme (fun a b => b.score ≤ a.score) :=
      ⟨fun a b => le_total b.score a.score⟩
    haveI : IsTrans GlobalTheme (fun a b => b.score ≤ a.score) :=
      ⟨fun _ _ _ hab hbc => le_trans hbc hab⟩
    exact List.sorted_insertionSort _ _
  · intro t ht
    have ht' := (List.mem_insertionSort _).1 ht
    rcases List.mem_map.1 ht' with ⟨g, hg, rfl⟩
    refine ⟨g, hg, rfl, rfl, rfl, ?_⟩
    have hg' : g ∈ groupSimilarAux
        (List.insertionSort (fun a b => b.frequency ≤ a.frequency)
          (analyzeNotes noteTexts).keywords)
        (List.insertionSort (fun a b => b.frequency ≤ a.frequency)
          (analyzeNotes noteTexts).keywords) [] :=
      (List.take_sublist 5 _).mem hg
    rcases groupSimilarAux_mem _ _ _ g hg' with ⟨kw, tl, rfl, hcond⟩
    rcases hcond with h2 | ⟨rfl, h3⟩
    · left
      simpa [mkGlobalTheme] using h2
    · right
      constructor
      · simp [mkGlobalTheme]
      · simpa [mkGlobalTheme] using h3

/-! ## Theorems for C10 (n-gram record invariants) -/

theorem ngramFold_inv (key : ℕ → String) (M : ℕ) :
    ∀ (is : List ℕ) (acc : List (String × ℕ × List ℕ)),
      is.Pairwise (· < ·) → (∀ j ∈ is, j ≤ M) →
      (∀ e ∈ acc, e.2.2.length = e.2.1 ∧ e.2.2.Pairwise (· < ·) ∧
        ∀ p ∈ e.2.2, p ≤ M ∧ ∀ j ∈ is, p < j) →
      ∀ e ∈ is.foldl (fun acc i => bumpNGram acc (key i) i) acc,
        e.2.2.length = e.2.1 ∧ e.2.2.Pairwise (· < ·) ∧ ∀ p ∈ e.2.2, p ≤ M := by
  intro is
  induction is with
  | nil =>
    intro acc _ _ hacc e he
    exact ⟨(hacc e he).1, (hacc e he).2.1, fun p hp => ((hacc e he).2.2 p hp).1⟩
  | cons i rest ih =>
    intro acc hpw hbound hacc
    simp only [List.foldl_cons]
    have hpw' := List.pairwise_cons.1 hpw
    refine ih (bumpNGram acc (key i) i) hpw'.2
      (fun j hj => hbound j (List.mem_cons_of_mem _ hj)) ?_
    intro e he
    have hold : ∀ e₀ ∈ acc, e₀.2.2.length = e₀.2.1 ∧ e₀.2.2.Pairwise (· < ·) ∧
        ∀ p ∈ e₀.2.2, p ≤ M ∧ ∀ j ∈ rest, p < j := by
      intro e₀ h₀
      exact ⟨(hacc e₀ h₀).1, (hacc e₀ h₀).2.1, fun p hp =>
        ⟨((hacc e₀ h₀).2.2 p hp).1,
         fun j hj => ((hacc e₀ h₀).2.2 p hp).2 j (List.mem_cons_of_mem _ hj)⟩⟩
    have hi_le : i ≤ M := hbound i (List.mem_cons_self i rest)
    have hi_lt : ∀ j ∈ rest, i < j := hpw'.1
    unfold bumpNGram at he
    by_cases hany : acc.any (fun p => p.1 = key i)
    · simp only [hany, if_true] at he
      rcases List.mem_map.1 he with ⟨e₀, h₀, rfl⟩
      by_cases hkey : e₀.1 = key i
      · simp only [hkey, if_true]
        have h₀' := hold e₀ h₀
        have hlt_i : ∀ p ∈ e₀.2.2, p < i := fun p hp =>
          ((hacc e₀ h₀).2.2 p hp).2 i (List.mem_cons_self i rest)
        refine ⟨?_, ?_, ?_⟩
        · simp [h₀'.1]
        · refine List.pairwise_append.2 ⟨h₀'.2.1, List.pairwise_singleton _ _, ?_⟩
          intro p hp q hq
          rcases List.mem_singleton.1 hq with rfl
          exact hlt_i p hp
        · intro p hp
          rcases List.mem_append.1 hp with hp | hp
          · exact h₀'.2.2 p hp
          · rcases List.mem_singleton.1 hp with rfl
            exact ⟨hi_le, hi_lt⟩
      · simp only [hkey, if_false]
        exact hold e₀ h₀
    · simp only [hany, if_false] at he
      rcases List.mem_append.1 he with he | he
      · exact hold e he
      · rcases List.mem_singleton.1 he with rfl
        refine ⟨rfl, List.pairwise_singleton _ _, ?_⟩
        intro p hp
        rcases List.mem_singleton.1 hp with rfl
        exact ⟨hi_le, hi_lt⟩

theorem ngramTable_inv (words : List String) (n : ℕ) :
    ∀ e ∈ ngramTable words n,
      e.2.2.length = e.2.1 ∧ e.2.2.Pairwise (· < ·) ∧
      ∀ p ∈ e.2.2, p + n ≤ words.length := by
  intro e he
  unfold ngramTable ngramStarts at he
  by_cases hlen : words.length < n
  · simp only [hlen, if_true, List.foldl_nil] at he
    exact absurd he (List.not_mem_nil e)
  · simp only [hlen, if_false] at he
    have h := ngramFold_inv (fun i => ngramKey words i n) (words.length - n)
      (List.range (words.length - n + 1)) []
      (List.pairwise_lt_range _)
      (fun j hj => Nat.lt_succ_iff.1 (List.mem_range.1 hj))
      (fun e₀ h₀ => absurd h₀ (List.not_mem_nil e₀))
      e he
    refine ⟨h.1, h.2.1, fun p hp => ?_⟩
    have := h.2.2 p hp
    omega

/-- Claim C10: every n-gram record returned by `generateNGrams` (in
particular the bigrams and trigrams of `analyzeNotes`) has a positions list
whose length equals its frequency, strictly increasing start positions that
fit inside the token sequence, and frequency at least 2. -/
theorem generateNGrams_record_inv (words : List String) (n limit : ℕ)
    (ng : NGram) (hng : ng ∈ generateNGrams words n limit) :
    ng.positions.length = ng.frequency ∧
    ng.positions.Pairwise (· < ·) ∧
    2 ≤ ng.frequency ∧
    ∀ p ∈ ng.positions, p + n ≤ words.length := by
  unfold generateNGrams at hng
  have h1 : ng ∈ List.insertionSort (fun a b => b.frequency ≤ a.frequency)
      ((((ngramTable words n).map (fun p => NGram.mk p.1 p.2.1 p.2.2)).filter
        (fun ng => 1 < ng.frequency))) := (List.take_sublist _ _).mem hng
  have h2 := (List.mem_insertionSort _).1 h1
  have h3 := List.mem_filter.1 h2
  rcases List.mem_map.1 h3.1 with ⟨e, he, rfl⟩
  have h4 := ngramTable_inv words n e he
  have hfreq : 1 < e.2.1 := by simpa using h3.2
  exact ⟨h4.1, h4.2.1, hfreq, h4.2.2⟩

/-- Witness for `generateNGrams_record_inv` at a concrete input: the bigram
`a b` of `a b a b` occurs at positions 0 and 2 with frequency 2. -/
theorem generateNGrams_record_inv_witness :
    ((⟨"a b", 2, [0, 2]⟩ : NGram) ∈ generateNGrams ["a", "b", "a", "b"] 2 15) ∧
    ((2 : ℕ) = 2 ∧ ([0, 2] : List ℕ).Pairwise (· < ·) ∧ (2 : ℕ) ≤ 2 ∧
      ∀ p ∈ ([0, 2] : List ℕ), p + 2 ≤ (["a", "b", "a", "b"] : List String).length) := by
  refine ⟨by decide, ?_⟩
  exact generateNGrams_record_inv ["a", "b", "a", "b"] 2 15 ⟨"a b", 2, [0, 2]⟩
    (by decide)

/-! ## Shared list lemmas for the visualizer proofs -/

theorem getD_range_map {α : Type} (f : ℕ → α) (d : α) {n i : ℕ} (hi : i < n) :
    ((List.range n).map f).getD i d = f i := by
  rw [List.getD_eq_getElem _ _ (by simpa using hi)]
  simp

theorem getD_zipWith_q (f : ℚ → ℚ → ℚ) {a b : List ℚ} {k : ℕ}
    (ha : k < a.length) (hb : k < b.length) :
    (List.zipWith f a b).getD k 0 = f (a.getD k 0) (b.getD k 0) := by
  rw [List.getD_eq_getElem _ _ (by rw [List.length_zipWith]; exact lt_min ha hb),
      List.getD_eq_getElem _ _ ha, List.getD_eq_getElem _ _ hb]
  exact List.getElem_zipWith

theorem mem_zipWith_exists {α β γ : Type} (f : α → β → γ) :
    ∀ (a : List α) (b : List β) (x : γ), x ∈ List.zipWith f a b →
      ∃ y ∈ a, ∃ z ∈ b, x = f y z := by
  intro a
  induction a with
  | nil =>
    intro b x hx
    simp at hx
  | cons y ys ih =>
    intro b x hx
    cases b with
    | nil => simp at hx
    | cons z zs =>
      simp only [List.zipWith_cons_cons, List.mem_cons] at hx
      rcases hx with rfl | hx
      · exact ⟨y, List.mem_cons_self _ _, z, List.mem_cons_self _ _, rfl⟩
      · rcases ih zs x hx with ⟨y', hy', z', hz', rfl⟩
        exact ⟨y', List.mem_cons_of_mem _ hy', z', List.mem_cons_of_mem _ hz', rfl⟩

theorem zipWith3_length {α β γ δ : Type} (f : α → β → γ → δ) :
    ∀ (a : List α) (b : List β) (c : List γ),
      (List.zipWith3 f a b c).length = min a.length (min b.length c.length) := by
  intro a
  induction a with
  | nil =>
    intro b c
    simp [List.zipWith3]
  | cons y ys ih =>
    intro b c
    cases b with
    | nil => simp [List.zipWith3]
    | cons z zs =>
      cases c with
      | nil => simp [List.zipWith3]
      | cons w ws =>
        simp only [List.zipWith3, List.length_cons, ih]
        omega

theorem mem_zipWith3_exists {α β γ δ : Type} (f : α → β → γ → δ) :
    ∀ (a : List α) (b : List β) (c : List γ) (x : δ),
      x ∈ List.zipWith3 f a b c → ∃ y ∈ a, ∃ z ∈ b, ∃ w ∈ c, x = f y z w := by
  intro a
  induction a with
  | nil =>
    intro b c x hx
    simp [List.zipWith3] at hx
  | cons y ys ih =>
    intro b c x hx
    cases b with
    | nil => simp [List.zipWith3] at hx
    | cons z zs =>
      cases c with
      | nil => simp [List.zipWith3] at hx
      | cons w ws =>
        simp only [List.zipWith3, List.mem_cons] at hx
        rcases hx with rfl | hx
        · exact ⟨y, List.mem_cons_self _ _, z, List.mem_cons_self _ _,
            w, List.mem_cons_self _ _, rfl⟩
        · rcases ih zs ws x hx with ⟨y', hy', z', hz', w', hw', rfl⟩
          exact ⟨y', List.mem_cons_of_mem _ hy', z', List.mem_cons_of_mem _ hz',
            w', List.mem_cons_of_mem _ hw', rfl⟩

theorem sum_map_sub_const {α : Type} (l : List α) (g : α → ℚ) (c : ℚ) :
    (l.map (fun x => g x - c)).sum = (l.map g).sum - l.length * c := by
  induction l with
  | nil => simp
  | cons a t ih =>
    simp only [List.map_cons, List.sum_cons, ih, List.length_cons]
    push_cast
    ring

/-! ## Theorems for C2 (the t-SNE gradient carries no factor 4) -/

theorem gradRow_foldl_entry (P Q Y : List (List ℚ)) (i k dims : ℕ)
    (hk : k < dims) (hrows : ∀ row ∈ Y, row.length = dims) (hi : i < Y.length) :
    ∀ (js : List ℕ) (row : List ℚ), row.length = dims →
      (∀ j ∈ js, j < Y.length) →
      (js.foldl (fun row j =>
        if i ≠ j then
          let mult := (P.getD i []).getD j 0 - (Q.getD i []).getD j 0
          let dist := sqDist (Y.getD i []) (Y.getD j [])
          let factor := mult / (1 + dist)
          List.zipWith (fun r d => r + factor * d) row
            (List.zipWith (fun a b => a - b) (Y.getD i []) (Y.getD j []))
        else row) row).getD k 0 =
      row.getD k 0 + ((js.filter (fun j => j ≠ i)).map (fun j =>
        ((P.getD i []).getD j 0 - (Q.getD i []).getD j 0) /
          (1 + sqDist (Y.getD i []) (Y.getD j [])) *
          ((Y.getD i []).getD k 0 - (Y.getD j []).getD k 0))).sum := by
  intro js
  induction js with
  | nil =>
    intro row _ _
    simp
  | cons j js ih =>
    intro row hrow hjs
    have hYi : (Y.getD i []).length = dims :=
      hrows _ (List.getD_eq_getElem Y [] hi ▸ List.getElem_mem hi)
    simp only [List.foldl_cons]
    by_cases hij : i ≠ j
    · rw [if_pos hij]
      have hj : j < Y.length := hjs j (List.mem_cons_self j js)
      have hYj : (Y.getD j []).length = dims :=
        hrows _ (List.getD_eq_getElem Y [] hj ▸ List.getElem_mem hj)
      have hlen' : (List.zipWith
          (fun r d => r + ((P.getD i []).getD j 0 - (Q.getD i []).getD j 0) /
            (1 + sqDist (Y.getD i []) (Y.getD j [])) * d) row
          (List.zipWith (fun a b => a - b) (Y.getD i []) (Y.getD j []))).length
          = dims := by
        rw [List.length_zipWith, List.length_zipWith, hrow, hYi, hYj]
        simp
      rw [ih _ hlen' (fun j' hj' => hjs j' (List.mem_cons_of_mem _ hj'))]
      have hentry := getD_zipWith_q
        (fun r d => r + ((P.getD i []).getD j 0 - (Q.getD i []).getD j 0) /
          (1 + sqDist (Y.getD i []) (Y.getD j [])) * d)
        (a := row) (b := List.zipWith (fun a b => a - b) (Y.getD i []) (Y.getD j []))
        (k := k) (by omega)
        (by rw [List.length_zipWith, hYi, hYj]; simp [hk])
      have hsub := getD_zipWith_q (fun a b => a - b)
        (a := Y.getD i []) (b := Y.getD j []) (k := k)
        (by omega) (by omega)
      rw [hentry, hsub]
      have hfil : (j :: js).filter (fun j => j ≠ i) =
          j :: js.filter (fun j => j ≠ i) := by
        simp [List.filter_cons, Ne.symm hij]
      rw [hfil]
      simp only [List.map_cons, List.sum_cons]
      ring
    · rw [if_neg hij]
      push_neg at hij
      have hfil : (j :: js).filter (fun j => j ≠ i) =
          js.filter (fun j => j ≠ i) := by
        simp [List.filter_cons, hij.symm]
      rw [hfil]
      exact ih row hrow (fun j' hj' => hjs j' (List.mem_cons_of_mem _ hj'))

/-- Claim C2 (counterexample): at `P = [[0,1/2],[1/2,0]]`,
`Q = [[0,1/4],[1/4,0]]`, `Y = [[0,0],[1,0]]` the gradient the code computes
for point 0, coordinate 0 is `-1/8`, while the standard t-SNE formula with
its leading factor 4 gives `-1/2`; the code's gradient is NOT the standard
formula. -/
theorem computeGradient_no_factor4_counterexample :
    ((computeGradient [[0, 1/2], [1/2, 0]] [[0, 1/4], [1/4, 0]]
      [[0, 0], [1, 0]]).getD 0 []).getD 0 0 = -1/8 ∧
    tsneGradientSpec [[0, 1/2], [1/2, 0]] [[0, 1/4], [1/4, 0]]
      [[0, 0], [1, 0]] 0 0 = -1/2 ∧
    ((computeGradient [[0, 1/2], [1/2, 0]] [[0, 1/4], [1/4, 0]]
      [[0, 0], [1, 0]]).getD 0 []).getD 0 0 ≠
      tsneGradientSpec [[0, 1/2], [1/2, 0]] [[0, 1/4], [1/4, 0]]
        [[0, 0], [1, 0]] 0 0 := by
  refine ⟨by decide, by decide, by decide⟩

/-- Claim C2 (amended): in every gradient-descent iteration the gradient
computed for point `i`, coordinate `k`, equals
`Σ_j (P[i][j]-Q[i][j])·(Y_i-Y_j)·(1+‖Y_i-Y_j‖²)⁻¹` — the standard t-SNE
gradient formula WITHOUT its leading factor 4, i.e. exactly one quarter of
the spec's formula. -/
theorem computeGradient_eq_quarter_spec (P Q Y : List (List ℚ)) (i k : ℕ)
    (hi : i < Y.length) (hk : k < (Y.getD 0 []).length)
    (hrows : ∀ row ∈ Y, row.length = (Y.getD 0 []).length) :
    ((computeGradient P Q Y).getD i []).getD k 0 =
      tsneGradientSpec P Q Y i k / 4 := by
  unfold computeGradient
  rw [getD_range_map _ _ hi]
  unfold gradRow
  rw [gradRow_foldl_entry P Q Y i k _ hk hrows hi (List.range Y.length)
    (List.replicate _ 0) (by simp) (fun j hj => List.mem_range.1 hj)]
  rw [List.getD_eq_getElem _ _ (by simpa using hk)]
  simp only [List.getElem_replicate, zero_add]
  unfold tsneGradientSpec
  rw [mul_comm, mul_div_assoc]
  norm_num
  congr 1
  exact List.map_congr_left (fun j _ => by ring)

/-- Witness for `computeGradient_eq_quarter_spec` at a concrete input. -/
theorem computeGradient_eq_quarter_spec_witness :
    ((0 : ℕ) < ([[0, 0], [1, 0]] : List (List ℚ)).length) ∧
    ((0 : ℕ) < (([[0, 0], [1, 0]] : List (List ℚ)).getD 0 []).length) ∧
    (∀ row ∈ ([[0, 0], [1, 0]] : List (List ℚ)),
      row.length = (([[0, 0], [1, 0]] : List (List ℚ)).getD 0 []).length) ∧
    ((computeGradient [[0, 1/2], [1/2, 0]] [[0, 1/4], [1/4, 0]]
        [[0, 0], [1, 0]]).getD 0 []).getD 0 0 =
      tsneGradientSpec [[0, 1/2], [1/2, 0]] [[0, 1/4], [1/4, 0]]
        [[0, 0], [1, 0]] 0 0 / 4 :=
  ⟨by decide, by decide, by decide,
    computeGradient_eq_quarter_spec [[0, 1/2], [1/2, 0]] [[0, 1/4], [1/4, 0]]
      [[0, 0], [1, 0]] 0 0 (by decide) (by decide) (by decide)⟩

/-! ## Theorems for C7 (cluster assignment bounds) -/

theorem nearestCentroid_foldl_lt (k : ℕ) (dist : ℕ → ℚ) :
    ∀ (cs : List ℕ) (acc : Option ℚ × ℕ), (∀ c ∈ cs, c < k) → acc.2 < k →
      ((cs.foldl (fun acc c =>
        match acc.1 with
        | none => (some (dist c), c)
        | some m => if dist c < m then (some (dist c), c) else acc) acc).2) < k := by
  intro cs
  induction cs with
  | nil =>
    intro acc _ hacc
    simpa using hacc
  | cons c cs ih =>
    intro acc hcs hacc
    simp only [List.foldl_cons]
    apply ih _ (fun c' hc' => hcs c' (List.mem_cons_of_mem _ hc'))
    have hc : c < k := hcs c (List.mem_cons_self c cs)
    rcases acc with ⟨m?, best⟩
    cases m? with
    | none => exact hc
    | some m =>
      by_cases hlt : dist c < m
      · simp only [hlt, if_true]
        exact hc
      · simp only [hlt, if_false]
        exact hacc

theorem nearestCentroid_lt (dims : ℕ) (p : List ℚ) (centroids : List (List ℚ))
    (k : ℕ) (hk : 1 ≤ k) : nearestCentroid dims p centroids k < k := by
  unfold nearestCentroid
  exact nearestCentroid_foldl_lt k (fun c => sqDistTo dims p (centroids.getD c []))
    (List.range k) ((none : Option ℚ), 0)
    (fun c hc => List.mem_range.1 hc) hk

theorem kmeansIterate_lt (points : List (List ℚ)) (k dims : ℕ) (hk : 1 ≤ k) :
    ∀ (m : ℕ) (st : List (List ℚ) × List ℕ), (∀ c ∈ st.2, c < k) →
      ∀ c ∈ ((kmeansIter points k dims)^[m] st).2, c < k := by
  intro m
  induction m with
  | zero =>
    intro st hst
    simpa using hst
  | succ m ih =>
    intro st hst c hc
    rw [Function.iterate_succ_apply'] at hc
    unfold kmeansIter at hc
    simp only at hc
    rcases List.mem_map.1 hc with ⟨p, _, rfl⟩
    exact nearestCentroid_lt dims p _ k hk

/-- Claim C7: `assignClusters` with `k ≤ 1` returns the all-zero vector of
the input's length, and for every `k ≥ 1` every assigned cluster index is
strictly below `k`. -/
theorem assignClusters_spec (rand : ℕ → ℕ → ℚ) (points : List (List ℚ))
    (k : ℕ) :
    (k ≤ 1 → assignClusters rand points k = List.replicate points.length 0) ∧
    (1 ≤ k → ∀ c ∈ assignClusters rand points k, c < k) := by
  constructor
  · intro hk
    unfold assignClusters
    rw [if_pos hk]
    exact List.map_const points 0
  · intro hk c hc
    unfold assignClusters at hc
    by_cases hk1 : k ≤ 1
    · rw [if_pos hk1] at hc
      rcases List.mem_map.1 hc with ⟨_, _, rfl⟩
      exact hk
    · rw [if_neg hk1] at hc
      exact kmeansIterate_lt points k (points.getD 0 []).length hk 50
        (_, List.replicate points.length 0)
        (fun c' hc' => by
          rcases List.eq_of_mem_replicate hc' with rfl
          exact hk) c hc

/-! ## Theorems for C6 (generateTSNEVisualization) -/

theorem length_filterMap_snd_eq_filter_isSome
    (results : List (String × Option (List ℚ))) :
    (results.filterMap (fun r => r.2)).length =
      (results.filter (fun r => r.2.isSome)).length := by
  induction results with
  | nil => simp
  | cons r t ih =>
    rcases r with ⟨id, e⟩
    cases e with
    | none => simpa [List.filterMap_cons, List.filter_cons] using ih
    | some v => simpa [List.filterMap_cons, List.filter_cons] using ih

/-- Claim C6: `generateTSNEVisualization` fails exactly when fewer than 2
inputs carry a usable embedding (inputs without one are excluded, not
zero-filled), and with `N` usable embeddings it feeds the projector the
excluded-input-free embedding list with perplexity
`min(requestedPerplexity, floor(N/3))` and partitions the projected points
into `min(5, floor(N/3))` clusters, whose coordinates and cluster indices the
output points carry in order. -/
theorem generateTSNEVisualization_spec
    (project : List (List ℚ) → ℚ → ℕ → ℚ → List (List ℚ))
    (assign : List (List ℚ) → ℕ → List ℕ)
    (results : List (String × Option (List ℚ)))
    (perplexity : ℚ) (iterations : ℕ) (learningRate : ℚ) :
    ((∃ e, generateTSNEVisualization project assign results perplexity
        iterations learningRate = Except.error e) ↔
      (results.filter (fun r => r.2.isSome)).length < 2) ∧
    (∀ out, generateTSNEVisualization project assign results perplexity
        iterations learningRate = Except.ok out →
      2 ≤ (results.filter (fun r => r.2.isSome)).length ∧
      out.points.length = (results.filter (fun r => r.2.isSome)).length ∧
      out.perplexity = perplexity ∧ out.iterations = iterations ∧
      ∀ idx < (results.filter (fun r => r.2.isSome)).length,
        (out.points.getD idx default).x =
          ((project (results.filterMap (fun r => r.2))
            (min perplexity
              (((results.filter (fun r => r.2.isSome)).length / 3 : ℕ) : ℚ))
            iterations learningRate).getD idx []).getD 0 0 ∧
        (out.points.getD idx default).y =
          ((project (results.filterMap (fun r => r.2))
            (min perplexity
              (((results.filter (fun r => r.2.isSome)).length / 3 : ℕ) : ℚ))
            iterations learningRate).getD idx []).getD 1 0 ∧
        (out.points.getD idx default).cluster =
          ((assign (project (results.filterMap (fun r => r.2))
              (min perplexity
                (((results.filter (fun r => r.2.isSome)).length / 3 : ℕ) : ℚ))
              iterations learningRate)
            (min 5 ((results.filter (fun r => r.2.isSome)).length / 3))).getD
            idx 0)) := by
  have hN := length_filterMap_snd_eq_filter_isSome results
  unfold generateTSNEVisualization
  by_cases hlt : (results.filterMap (fun r => r.2)).length < 2
  · rw [if_pos hlt]
    constructor
    · constructor
      · intro _
        omega
      · intro _
        exact ⟨_, rfl⟩
    · intro out hout
      exact absurd hout (by simp)
  · rw [if_neg hlt]
    constructor
    · constructor
      · intro ⟨e, he⟩
        exact absurd he (by simp)
      · intro h
        omega
    · intro out hout
      have hout' : out = _ := (Except.ok.inj hout).symm
      subst hout'
      have hvalid : ((results.filter (fun r => r.2.isSome)).map
          (fun r => r.1)).length =
          (results.filter (fun r => r.2.isSome)).length := List.length_map _ _
      refine ⟨by omega, ?_, rfl, rfl, ?_⟩
      · simp only [List.length_map, List.length_range]
      · intro idx hidx
        rw [hN] at hlt
        have hlen : idx < (((results.filter (fun r => r.2.isSome)).map
            (fun r => r.1)).length) := by omega
        rw [getD_range_map _ _ (by omega)]
        rw [← hN]
        exact ⟨rfl, rfl, rfl⟩

/-! ## Theorems for C8 (runTSNE output shape and final centering) -/

theorem gradRow_foldl_length (P Q Y : List (List ℚ))
    (hrows : ∀ row ∈ Y, row.length = 2) (i : ℕ) :
    ∀ (js : List ℕ) (row : List ℚ), row.length = 2 →
      (∀ j ∈ js, j < Y.length) → i < Y.length →
      (js.foldl (fun row j =>
        if i ≠ j then
          let mult := (P.getD i []).getD j 0 - (Q.getD i []).getD j 0
          let dist := sqDist (Y.getD i []) (Y.getD j [])
          let factor := mult / (1 + dist)
          List.zipWith (fun r d => r + factor * d) row
            (List.zipWith (fun a b => a - b) (Y.getD i []) (Y.getD j []))
        else row) row).length = 2 := by
  intro js
  induction js with
  | nil =>
    intro row hrow _ _
    simpa using hrow
  | cons j js ih =>
    intro row hrow hjs hi
    simp only [List.foldl_cons]
    by_cases hij : i ≠ j
    · rw [if_pos hij]
      have hYi : (Y.getD i []).length = 2 :=
        hrows _ (List.getD_eq_getElem Y [] hi ▸ List.getElem_mem hi)
      have hj : j < Y.length := hjs j (List.mem_cons_self j js)
      have hYj : (Y.getD j []).length = 2 :=
        hrows _ (List.getD_eq_getElem Y [] hj ▸ List.getElem_mem hj)
      refine ih _ ?_ (fun j' hj' => hjs j' (List.mem_cons_of_mem _ hj')) hi
      rw [List.length_zipWith, List.length_zipWith, hrow, hYi, hYj]
      simp
    · rw [if_neg hij]
      exact ih row hrow (fun j' hj' => hjs j' (List.mem_cons_of_mem _ hj')) hi

theorem computeGradient_shape (P Q Y : List (List ℚ)) (hY : Y ≠ [])
    (hrows : ∀ row ∈ Y, row.length = 2) :
    (computeGradient P Q Y).length = Y.length ∧
    ∀ row ∈ computeGradient P Q Y, row.length = 2 := by
  have h0 : 0 < Y.length := List.length_pos.2 hY
  have hdims : (Y.getD 0 []).length = 2 :=
    hrows _ (List.getD_eq_getElem Y [] h0 ▸ List.getElem_mem h0)
  constructor
  · simp [computeGradient]
  · intro row hrow
    unfold computeGradient at hrow
    rcases List.mem_map.1 hrow with ⟨i, hi, rfl⟩
    have hi' : i < Y.length := List.mem_range.1 hi
    unfold gradRow
    rw [hdims]
    exact gradRow_foldl_length P Q Y hrows i (List.range Y.length)
      (List.replicate 2 0) (by simp) (fun j hj => List.mem_range.1 hj) hi'

theorem matZip3_shape {n : ℕ} (f : ℚ → ℚ → ℚ → ℚ)
    (A B C : List (List ℚ))
    (hA1 : A.length = n) (hA2 : ∀ row ∈ A, row.length = 2)
    (hB1 : B.length = n) (hB2 : ∀ row ∈ B, row.length = 2)
    (hC1 : C.length = n) (hC2 : ∀ row ∈ C, row.length = 2) :
    (List.zipWith3 (List.zipWith3 f) A B C).length = n ∧
    ∀ row ∈ List.zipWith3 (List.zipWith3 f) A B C, row.length = 2 := by
  constructor
  · rw [zipWith3_length, hA1, hB1, hC1]
    simp
  · intro row hrow
    rcases mem_zipWith3_exists _ A B C row hrow with ⟨y, hy, z, hz, w, hw, rfl⟩
    rw [zipWith3_length, hA2 y hy, hB2 z hz, hC2 w hw]
    simp

theorem matZip_shape {n : ℕ} (f : ℚ → ℚ → ℚ)
    (A B : List (List ℚ))
    (hA1 : A.length = n) (hA2 : ∀ row ∈ A, row.length = 2)
    (hB1 : B.length = n) (hB2 : ∀ row ∈ B, row.length = 2) :
    (List.zipWith (List.zipWith f) A B).length = n ∧
    ∀ row ∈ List.zipWith (List.zipWith f) A B, row.length = 2 := by
  constructor
  · rw [List.length_zipWith, hA1, hB1]
    simp
  · intro row hrow
    rcases mem_zipWith_exists _ A B row hrow with ⟨y, hy, z, hz, rfl⟩
    rw [List.length_zipWith, hA2 y hy, hB2 z hz]
    simp

theorem centerData_shape (Y : List (List ℚ)) (hY : Y ≠ [])
    (hrows : ∀ row ∈ Y, row.length = 2) :
    (centerData Y).length = Y.length ∧
    ∀ row ∈ centerData Y, row.length = 2 := by
  have h0 : 0 < Y.length := List.length_pos.2 hY
  have hdims : (Y.getD 0 []).length = 2 :=
    hrows _ (List.getD_eq_getElem Y [] h0 ▸ List.getElem_mem h0)
  constructor
  · simp [centerData]
  · intro row hrow
    unfold centerData at hrow
    rcases List.mem_map.1 hrow with ⟨r, hr, rfl⟩
    rw [List.length_zipWith, hrows r hr, hdims]
    simp

theorem centerData_colSum (Y : List (List ℚ)) (hY : Y ≠ [])
    (hrows : ∀ row ∈ Y, row.length = 2) (d : ℕ) (hd : d < 2) :
    ((centerData Y).map (fun row => row.getD d 0)).sum = 0 := by
  have h0 : 0 < Y.length := List.length_pos.2 hY
  have hdims : (Y.getD 0 []).length = 2 :=
    hrows _ (List.getD_eq_getElem Y [] h0 ▸ List.getElem_mem h0)
  unfold centerData
  rw [hdims, List.map_map]
  have hmeans : ((List.range 2).map (fun j =>
      (Y.map (fun row => row.getD j 0)).sum / (Y.length : ℚ))).getD d 0 =
      (Y.map (fun row => row.getD d 0)).sum / (Y.length : ℚ) :=
    getD_range_map _ _ hd
  have hcong : Y.map ((fun row => row.getD d 0) ∘ (fun row =>
      List.zipWith (fun y m => y - m) row ((List.range 2).map (fun j =>
        (Y.map (fun row => row.getD j 0)).sum / (Y.length : ℚ))))) =
      Y.map (fun row => row.getD d 0 -
        (Y.map (fun row => row.getD d 0)).sum / (Y.length : ℚ)) := by
    refine List.map_congr_left (fun r hr => ?_)
    simp only [Function.comp]
    rw [getD_zipWith_q _ (by rw [hrows r hr]; exact hd) (by simpa using hd),
      hmeans]
  rw [hcong, sum_map_sub_const]
  have hlen0 : (Y.length : ℚ) ≠ 0 := by
    exact_mod_cast Nat.pos_iff_ne_zero.1 h0
  field_simp

theorem tsneIter_step_facts (P : List (List ℚ)) (n : ℕ) (hn : 1 ≤ n)
    (st : TSNEState) (iter : ℕ)
    (hY1 : st.Y.length = n) (hY2 : ∀ row ∈ st.Y, row.length = 2)
    (hu1 : st.uY.length = n) (hu2 : ∀ row ∈ st.uY, row.length = 2)
    (hg1 : st.gains.length = n) (hg2 : ∀ row ∈ st.gains, row.length = 2) :
    ((tsneIter P st iter).Y.length = n ∧
      (∀ row ∈ (tsneIter P st iter).Y, row.length = 2)) ∧
    ((tsneIter P st iter).uY.length = n ∧
      (∀ row ∈ (tsneIter P st iter).uY, row.length = 2)) ∧
    ((tsneIter P st iter).gains.length = n ∧
      (∀ row ∈ (tsneIter P st iter).gains, row.length = 2)) ∧
    (∀ d, d < 2 →
      ((tsneIter P st iter).Y.map (fun row => row.getD d 0)).sum = 0) := by
  have hYne : st.Y ≠ [] := List.ne_nil_of_length_pos (by omega)
  have hdY := computeGradient_shape P (computeLowDimProbabilities st.Y) st.Y
    hYne hY2
  have hdY1 : (computeGradient P (computeLowDimProbabilities st.Y) st.Y).length
      = n := hdY.1.trans hY1
  have hgains := matZip3_shape (n := n)
    (fun g d u => max (if jsign d ≠ jsign u then g + 1/5 else g * (4/5)) (1/100))
    st.gains (computeGradient P (computeLowDimProbabilities st.Y) st.Y) st.uY
    hg1 hg2 hdY1 hdY.2 hu1 hu2
  have huY := matZip3_shape (n := n)
    (fun u g d => (4/5) * u - st.eta * g * d)
    st.uY
    (List.zipWith3 (List.zipWith3 (fun g d u =>
      max (if jsign d ≠ jsign u then g + 1/5 else g * (4/5)) (1/100)))
      st.gains (computeGradient P (computeLowDimProbabilities st.Y) st.Y) st.uY)
    (computeGradient P (computeLowDimProbabilities st.Y) st.Y)
    hu1 hu2 hgains.1 hgains.2 hdY1 hdY.2
  have hYnew := matZip_shape (n := n) (fun y u => y + u)
    st.Y
    (List.zipWith3 (List.zipWith3 (fun u g d => (4/5) * u - st.eta * g * d))
      st.uY
      (List.zipWith3 (List.zipWith3 (fun g d u =>
        max (if jsign d ≠ jsign u then g + 1/5 else g * (4/5)) (1/100)))
        st.gains (computeGradient P (computeLowDimProbabilities st.Y) st.Y) st.uY)
      (computeGradient P (computeLowDimProbabilities st.Y) st.Y))
    hY1 hY2 huY.1 huY.2
  have hYnewne : (List.zipWith (List.zipWith (fun y u => y + u)) st.Y
      (List.zipWith3 (List.zipWith3 (fun u g d => (4/5) * u - st.eta * g * d))
        st.uY
        (List.zipWith3 (List.zipWith3 (fun g d u =>
          max (if jsign d ≠ jsign u then g + 1/5 else g * (4/5)) (1/100)))
          st.gains (computeGradient P (computeLowDimProbabilities st.Y) st.Y)
          st.uY)
        (computeGradient P (computeLowDimProbabilities st.Y) st.Y))) ≠ [] :=
    List.ne_nil_of_length_pos (by omega)
  have hcenter := centerData_shape _ hYnewne hYnew.2
  refine ⟨⟨hcenter.1.trans hYnew.1, hcenter.2⟩, ⟨huY.1, huY.2⟩,
    ⟨hgains.1, hgains.2⟩, ?_⟩
  intro d hd
  exact centerData_colSum _ hYnewne hYnew.2 d hd

theorem tsneFold_shape (P : List (List ℚ)) (n : ℕ) (hn : 1 ≤ n) :
    ∀ (iters : List ℕ) (st : TSNEState),
      st.Y.length = n → (∀ row ∈ st.Y, row.length = 2) →
      st.uY.length = n → (∀ row ∈ st.uY, row.length = 2) →
      st.gains.length = n → (∀ row ∈ st.gains, row.length = 2) →
      ((iters.foldl (fun st iter => tsneIter P st iter) st).Y.length = n ∧
        (∀ row ∈ (iters.foldl (fun st iter => tsneIter P st iter) st).Y,
          row.length = 2)) ∧
      ((iters.foldl (fun st iter => tsneIter P st iter) st).uY.length = n ∧
        (∀ row ∈ (iters.foldl (fun st iter => tsneIter P st iter) st).uY,
          row.length = 2)) ∧
      ((iters.foldl (fun st iter => tsneIter P st iter) st).gains.length = n ∧
        (∀ row ∈ (iters.foldl (fun st iter => tsneIter P st iter) st).gains,
          row.length = 2)) := by
  intro iters
  induction iters with
  | nil =>
    intro st h1 h2 h3 h4 h5 h6
    exact ⟨⟨h1, h2⟩, ⟨h3, h4⟩, ⟨h5, h6⟩⟩
  | cons iter iters ih =>
    intro st h1 h2 h3 h4 h5 h6
    simp only [List.foldl_cons]
    have hstep := tsneIter_step_facts P n hn st iter h1 h2 h3 h4 h5 h6
    exact ih (tsneIter P st iter) hstep.1.1 hstep.1.2 hstep.2.1.1 hstep.2.1.2
      hstep.2.2.1.1 hstep.2.2.1.2

/-- Claim C8: on `N ≥ 2` input embeddings and at least one iteration,
`runTSNE` returns exactly `N` two-dimensional coordinate rows (one per input
embedding, in input order), and because re-centering runs after every
gradient step including the last, each axis of the returned layout sums to
exactly 0, so the mean coordinate per axis is 0 — within the claimed `1e-6`
tolerance. -/
theorem runTSNE_shape_centered (sqrtQ expQ logQ : ℚ → ℚ) (rand : ℕ → ℕ → ℚ)
    (embeddings : List (List ℚ)) (perplexity : ℚ) (iterations : ℕ)
    (learningRate : ℚ) (hn : 2 ≤ embeddings.length) (hiter : 1 ≤ iterations) :
    (runTSNE sqrtQ expQ logQ rand embeddings perplexity iterations
      learningRate).length = embeddings.length ∧
    (∀ row ∈ runTSNE sqrtQ expQ logQ rand embeddings perplexity iterations
      learningRate, row.length = 2) ∧
    (∀ d, d < 2 →
      ((runTSNE sqrtQ expQ logQ rand embeddings perplexity iterations
        learningRate).map (fun row => row.getD d 0)).sum = 0) ∧
    (∀ d, d < 2 →
      |((runTSNE sqrtQ expQ logQ rand embeddings perplexity iterations
          learningRate).map (fun row => row.getD d 0)).sum /
        ((runTSNE sqrtQ expQ logQ rand embeddings perplexity iterations
          learningRate).length : ℚ)| ≤ 1/1000000) := by
  have h1 : 1 ≤ embeddings.length := by omega
  obtain ⟨m, rfl⟩ : ∃ m, iterations = m + 1 := ⟨iterations - 1, by omega⟩
  have hrun : runTSNE sqrtQ expQ logQ rand embeddings perplexity (m + 1)
      learningRate =
      ((List.range (m + 1)).foldl (fun st iter =>
        tsneIter (computeProbabilities expQ logQ
          (computeDistances sqrtQ embeddings) perplexity) st iter)
        ⟨(List.range embeddings.length).map (fun i =>
            (List.range 2).map (fun j => (rand i j - 1/2) * (1/10000))),
          List.replicate embeddings.length (List.replicate 2 0),
          List.replicate embeddings.length (List.replicate 2 1),
          learningRate⟩).Y := rfl
  rw [hrun, show List.range (m + 1) = List.range m ++ [m] from List.range_succ m,
    List.foldl_append, List.foldl_cons, List.foldl_nil]
  have hY01 : ((List.range embeddings.length).map (fun i =>
      (List.range 2).map (fun j => (rand i j - 1/2) * (1/10000)))).length =
      embeddings.length := by simp
  have hY02 : ∀ row ∈ (List.range embeddings.length).map (fun i =>
      (List.range 2).map (fun j => (rand i j - 1/2) * (1/10000))),
      row.length = 2 := by
    intro row hrow
    rcases List.mem_map.1 hrow with ⟨i, _, rfl⟩
    simp
  have hfold := tsneFold_shape
    (computeProbabilities expQ logQ (computeDistances sqrtQ embeddings)
      perplexity) embeddings.length h1 (List.range m)
    ⟨(List.range embeddings.length).map (fun i =>
        (List.range 2).map (fun j => (rand i j - 1/2) * (1/10000))),
      List.replicate embeddings.length (List.replicate 2 0),
      List.replicate embeddings.length (List.replicate 2 1),
      learningRate⟩
    hY01 hY02 (by simp) (fun row hrow => by
      rcases List.eq_of_mem_replicate hrow with rfl
      simp)
    (by simp) (fun row hrow => by
      rcases List.eq_of_mem_replicate hrow with rfl
      simp)
  have hstep := tsneIter_step_facts
    (computeProbabilities expQ logQ (computeDistances sqrtQ embeddings)
      perplexity) embeddings.length h1 _ m
    hfold.1.1 hfold.1.2 hfold.2.1.1 hfold.2.1.2 hfold.2.2.1 hfold.2.2.2
  refine ⟨hstep.1.1, hstep.1.2, hstep.2.2.2, ?_⟩
  intro d hd
  rw [hstep.2.2.2 d hd]
  simp

/-- Witness for `runTSNE_shape_centered`: two one-dimensional embeddings,
one iteration, identity stand-ins for `sqrt`, `exp`, `log` and a constant
random stream. -/
theorem runTSNE_shape_centered_witness :
    (2 ≤ ([[0], [1]] : List (List ℚ)).length) ∧ ((1 : ℕ) ≤ 1) ∧
    ((runTSNE (fun q => q) (fun q => q) (fun q => q) (fun _ _ => 0)
      [[0], [1]] 1 1 200).length = 2 ∧
    (∀ row ∈ runTSNE (fun q => q) (fun q => q) (fun q => q) (fun _ _ => 0)
      [[0], [1]] 1 1 200, row.length = 2) ∧
    (∀ d, d < 2 →
      ((runTSNE (fun q => q) (fun q => q) (fun q => q) (fun _ _ => 0)
        [[0], [1]] 1 1 200).map (fun row => row.getD d 0)).sum = 0) ∧
    (∀ d, d < 2 →
      |((runTSNE (fun q => q) (fun q => q) (fun q => q) (fun _ _ => 0)
          [[0], [1]] 1 1 200).map (fun row => row.getD d 0)).sum /
        ((runTSNE (fun q => q) (fun q => q) (fun q => q) (fun _ _ => 0)
          [[0], [1]] 1 1 200).length : ℚ)| ≤ 1/1000000)) :=
  ⟨by decide, by decide,
    runTSNE_shape_centered (fun q => q) (fun q => q) (fun q => q)
      (fun _ _ => 0) [[0], [1]] 1 1 200 (by decide) (by decide)⟩

end ObsAutoSort
